import Mathlib

/-!
Verification of the GTG `Requester` query layer (`src/GTG/core/requester.py`).

The `Requester` is a stateless read-side facade over a datastore.  We embed the
datastore snapshot as a `Store` (the list of task identifiers returned by
`ds.all_tasks()`, an association table backing `ds.get_task`, and the list of
tags returned by `ds.get_tagstore().get_all_tags(attname="nonworkview",
attvalue="True")`).  Task objects are external collaborators; their observable
state (status, tags, parents, loaded/started/workable flags) is embedded as a
record, and their query methods are modelled from the specification's contracts.

Python code that can raise (attribute access on `None`) is embedded in
`Except Unit`: `Except.error ()` marks a raised exception.
-/

set_option linter.unusedVariables false

namespace GTG

inductive Status where
  | Active
  | Done
  | Dismiss
  | Deleted
  | Note
deriving DecidableEq, Repr

abbrev TaskId := Nat

abbrev Tag := Nat

structure Task where
  status : Status
  tags : List Tag
  parents : List TaskId
  loaded : Bool
  started : Bool
  workable : Bool
deriving DecidableEq, Repr

structure Store where
  all_tasks : List TaskId
  table : List (TaskId × Task)
  nonworkTags : List Tag
deriving DecidableEq, Repr

/-- `ds.get_task(tid)`: resolve an identifier, possibly to nothing. -/
def Store.get_task (s : Store) (tid : TaskId) : Option Task :=
  (s.table.lookup tid)

/-- Modelled from the spec: `Task.has_tags(tags)` is outside the source slice;
per §4.1 step 3 it holds iff the task has at least one tag of the constraint
(OR semantics). -/
def Task.has_tags (t : Task) (tags : List Tag) : Bool :=
  t.tags.any fun tg => tags.contains tg

/-- Modelled from the spec: `Task.has_tags(notag_only=True)` is outside the
source slice; per §4.1 step 5 it holds iff the task carries no tags at all. -/
def Task.has_no_tags (t : Task) : Bool :=
  t.tags.isEmpty

/-- Modelled from the spec: `Task.has_parents()` is outside the source slice;
it holds iff the task has at least one parent link. -/
def Task.has_parents (t : Task) : Bool :=
  !t.parents.isEmpty

/-- Modelled from the spec: `Task.has_parents(tag=tags)` is outside the source
slice; per §4.1 step 3 it holds iff the task has a parent that itself carries
a tag of the constraint. -/
def hasParentWithTag (s : Store) (t : Task) (tags : List Tag) : Bool :=
  t.parents.any fun p =>
    match s.get_task p with
    | some pt => pt.has_tags tags
    | none => false

/-- Lines 112-117 of `requester.py`: resolve the candidate, drop it when it is
missing, not loaded, or its status is not in the requested status list. -/
def statusFiltered (s : Store) (status : List Status) (tid : TaskId) : Option Task :=
  match s.get_task tid with
  | none => none
  | some t =>
    if !t.loaded then none
    else if !(status.contains t.status) then none
    else some t

/-- Lines 121-127 of `requester.py` (the `if task and tags:` branch): drop the
task unless it carries a constraint tag; with `is_root`, additionally drop it
when a parent carries a constraint tag. -/
def tagFiltered (s : Store) (tags : List Tag) (is_root : Bool) (t : Task) : Option Task :=
  if !(t.has_tags tags) then none
  else if is_root && hasParentWithTag s t tags then none
  else some t

/-- Lines 131-135 of `requester.py`: the parent loop of the empty-tag `is_root`
branch.  Python resolves each parent with `self.get_task(p)` and immediately
calls `pp.get_status()`; when the parent resolves to `None` this raises
(`Except.error ()`).  The loop keeps running after the task is dropped, so a
later unresolvable parent still raises.  On success it reports whether every
parent has status `Note`. -/
def checkParentsNote (s : Store) : List TaskId → Except Unit Bool
  | [] => Except.ok true
  | p :: rest =>
    match s.get_task p with
    | none => Except.error ()
    | some pp =>
      match checkParentsNote s rest with
      | Except.error e => Except.error e
      | Except.ok b => Except.ok ((pp.status == Status.Note) && b)

/-- Lines 137-143 of `requester.py`: the trailing `notag_only` and
`started_only` checks, applied to whatever survived the earlier filters. -/
def postFilters (notag_only started_only : Bool) : Option Task → Bool
  | none => false
  | some t =>
    if notag_only && !(t.has_no_tags) then false
    else if started_only && !t.started then false
    else true

/-- The per-candidate body of the `get_tasks_list` loop (lines 112-147 of
`requester.py`): `Except.ok true` when `tid` is appended, `Except.ok false`
when it is dropped, `Except.error ()` when the iteration raises. -/
def acceptTask (s : Store) (tags : List Tag) (status : List Status)
    (notag_only started_only is_root : Bool) (tid : TaskId) : Except Unit Bool :=
  match statusFiltered s status tid with
  | none => Except.ok false
  | some t =>
    if !tags.isEmpty then
      Except.ok (postFilters notag_only started_only (tagFiltered s tags is_root t))
    else if is_root then
      if t.has_parents then
        match checkParentsNote s t.parents with
        | Except.error e => Except.error e
        | Except.ok allNote =>
          Except.ok (postFilters notag_only started_only (if allNote then some t else none))
      else Except.ok (postFilters notag_only started_only (some t))
    else Except.ok (postFilters notag_only started_only (some t))

/-- The `for tid in self.ds.all_tasks():` loop of `get_tasks_list`, collecting
accepted identifiers in order and propagating a raised exception. -/
def tasksListGo (s : Store) (tags : List Tag) (status : List Status)
    (notag_only started_only is_root : Bool) : List TaskId → Except Unit (List TaskId)
  | [] => Except.ok []
  | tid :: rest =>
    match acceptTask s tags status notag_only started_only is_root tid with
    | Except.error e => Except.error e
    | Except.ok b =>
      match tasksListGo s tags status notag_only started_only is_root rest with
      | Except.error e => Except.error e
      | Except.ok l => Except.ok (if b then tid :: l else l)

/-- `Requester.get_tasks_list` (lines 90-148 of `requester.py`).  The Python
`tags=None` default and an empty list are indistinguishable in this function
(only truthiness is used), so the embedding takes a plain list. -/
def get_tasks_list (s : Store) (tags : List Tag) (status : List Status)
    (notag_only started_only is_root : Bool) : Except Unit (List TaskId) :=
  tasksListGo s tags status notag_only started_only is_root s.all_tasks

/-- Lines 167-171 of `requester.py`: Python mutates `nonwork_tag` with
`remove` while a `for` loop iterates it by index, so removing the element at
the cursor makes the loop skip the element that slides into its place.  The
embedding tracks the cursor `i` explicitly: fetch `l[i]`, advance the cursor,
and erase the first occurrence of the fetched element when it is in `tags`.
The loop stops when the cursor falls off the (possibly shortened) list; the
cursor advances on every step and the list never grows, so the initial length
is a sufficient structural bound on the number of iterations. -/
def removeExplicitGo (tags : List Tag) : Nat → List Tag → Nat → List Tag
  | 0, l, _ => l
  | fuel + 1, l, i =>
    match l.get? i with
    | none => l
    | some x =>
      if tags.contains x then removeExplicitGo tags fuel (l.erase x) (i + 1)
      else removeExplicitGo tags fuel l (i + 1)

/-- The nonwork-tag pruning loop: `for nwtag in nonwork_tag: if tags and nwtag
in tags: nonwork_tag.remove(nwtag)`.  An empty `tags` never removes anything,
which coincides with `List.contains` on the empty list. -/
def removeExplicit (nonwork : List Tag) (tags : List Tag) : List Tag :=
  removeExplicitGo tags nonwork.length nonwork 0

/-- Lines 178-184 of `requester.py`: keep a candidate when it resolves, its
workable predicate holds, and either the exclusion set is empty or the task
carries no excluded tag. -/
def workFilterGo (s : Store) (nonwork : List Tag) : List TaskId → List TaskId
  | [] => []
  | tid :: rest =>
    match s.get_task tid with
    | none => workFilterGo s nonwork rest
    | some t =>
      if t.workable then
        if nonwork.isEmpty then tid :: workFilterGo s nonwork rest
        else if !(t.has_tags nonwork) then tid :: workFilterGo s nonwork rest
        else workFilterGo s nonwork rest
      else workFilterGo s nonwork rest

/-- `Requester.get_active_tasks_list` (lines 150-193 of `requester.py`).  The
workable path prunes the nonwork tag list, recursively calls itself with
`workable=False`, `started_only=True`, `is_root=False`, and filters the result;
the non-workable path delegates to `get_tasks_list` with status `["Active"]`
(the element-copy loop of lines 191-192 is the identity). -/
def get_active_tasks_list (s : Store) (tags : List Tag)
    (notag_only started_only is_root workable : Bool) : Except Unit (List TaskId) :=
  match workable with
  | true =>
    match get_active_tasks_list s tags notag_only true false false with
    | Except.error e => Except.error e
    | Except.ok temp =>
      Except.ok (workFilterGo s (removeExplicit s.nonworkTags tags) temp)
  | false =>
    get_tasks_list s tags [Status.Active] notag_only started_only is_root
termination_by workable.toNat
decreasing_by simp

/-- `Requester.get_closed_tasks_list` (lines 195-206 of `requester.py`). -/
def get_closed_tasks_list (s : Store) (tags : List Tag)
    (notag_only started_only is_root : Bool) : Except Unit (List TaskId) :=
  get_tasks_list s tags [Status.Done, Status.Dismiss, Status.Deleted]
    notag_only started_only is_root

/-- `Requester.get_notes_list` (lines 208-216 of `requester.py`). -/
def get_notes_list (s : Store) (tags : List Tag) (notag_only : Bool) :
    Except Unit (List TaskId) :=
  get_tasks_list s tags [Status.Note] notag_only false false

/-- The inner loop of `get_used_tags` (lines 255-257 of `requester.py`):
append each tag of the task that is not already collected. -/
def collectTags (acc : List Tag) (taskTags : List Tag) : List Tag :=
  taskTags.foldl (fun l tg => if l.contains tg then l else l ++ [tg]) acc

/-- The outer loop of `get_used_tags` (lines 252-257 of `requester.py`):
skip unresolvable identifiers, no loaded or status filtering. -/
def usedTagsGo (s : Store) (acc : List Tag) : List TaskId → List Tag
  | [] => acc
  | tid :: rest =>
    match s.get_task tid with
    | none => usedTagsGo s acc rest
    | some t => usedTagsGo s (collectTags acc t.tags) rest

/-- `Requester.get_used_tags` (lines 245-258 of `requester.py`). -/
def get_used_tags (s : Store) : List Tag :=
  usedTagsGo s [] s.all_tasks

/-- The acceptance predicate the workable pass of `get_active_tasks_list`
applies to each candidate of the base active list: the candidate resolves,
its workable predicate holds, and either the exclusion set is empty or it
carries no excluded tag. -/
def workPred (s : Store) (nonwork : List Tag) (tid : TaskId) : Bool :=
  match s.get_task tid with
  | none => false
  | some t => t.workable && (nonwork.isEmpty || !(t.has_tags nonwork))

/-- The tags of each resolvable task of the store, in iteration order.  Used
to state what `get_used_tags` collects. -/
def tagStream (s : Store) : List Tag :=
  s.all_tasks.flatMap fun tid =>
    match s.get_task tid with
    | some t => t.tags
    | none => []

/-- First-seen deduplication, defined independently of the accumulating loop
of `get_used_tags`: keep each element's first occurrence, drop the rest. -/
def firstSeen : List Tag → List Tag
  | [] => []
  | x :: xs => x :: firstSeen (xs.filter fun y => !(y == x))
termination_by l => l.length
decreasing_by
  have hle := List.length_filter_le (fun y => !(y == x)) xs
  simp only [List.length_cons]
  omega

/-- Fixture: an active, loaded, started, workable task whose only parent link
is the identifier 2. -/
def taskF : Task := ⟨Status.Active, [], [2], true, true, true⟩

/-- Fixture: a store whose only task has a parent identifier that resolves to
nothing. -/
def storeC1 : Store := ⟨[1], [(1, taskF)], []⟩

/-- Fixture: an active task carrying tag 2 only. -/
def taskE : Task := ⟨Status.Active, [2], [], true, true, true⟩

/-- Fixture: a store with nonwork tags 1 and 2 and one task carrying tag 2. -/
def storeC2 : Store := ⟨[5], [(5, taskE)], [1, 2]⟩

/-- Fixture: an active task with no parents and no tags. -/
def taskQ : Task := ⟨Status.Active, [], [], true, true, true⟩

/-- Fixture: a store where active task 1 is the child of active task 2. -/
def storeC4 : Store := ⟨[1, 2], [(1, taskF), (2, taskQ)], []⟩

/-- Fixture: a one-task store. -/
def storeW : Store := ⟨[1], [(1, taskQ)], []⟩

/-- Fixture: a done task. -/
def taskD : Task := ⟨Status.Done, [], [], true, true, true⟩

/-- Fixture: a note. -/
def taskG : Task := ⟨Status.Note, [], [], true, true, true⟩

/-- Fixture: a store with one active, one done and one note task. -/
def storeMix : Store := ⟨[1, 2, 3], [(1, taskQ), (2, taskD), (3, taskG)], []⟩

/-- Fixture: an unloaded active task. -/
def taskU : Task := ⟨Status.Active, [], [], false, true, true⟩

/-- Fixture: a store with a loaded task 1 and an unloaded task 2. -/
def storeC6 : Store := ⟨[1, 2], [(1, taskQ), (2, taskU)], []⟩

/-- Fixture: a store where active task 1 is the child of note 2. -/
def storeC9 : Store := ⟨[1, 2], [(1, taskF), (2, taskG)], []⟩

/-! ## Structural lemmas about the embedded operations -/

/-- The non-workable path of `get_active_tasks_list` is `get_tasks_list` with
status `["Active"]` and the caller's arguments. -/
theorem get_active_false_eq (s : Store) (tags : List Tag) (n so ir : Bool) :
    get_active_tasks_list s tags n so ir false =
      get_tasks_list s tags [Status.Active] n so ir := by
  unfold get_active_tasks_list
  rfl

/-- The workable path of `get_active_tasks_list`: whatever `started_only` and
`is_root` the caller passed, the base list is the non-workable active list
with `started_only=True`, `is_root=False`, then filtered by the workable
pass. -/
theorem get_active_true_eq (s : Store) (tags : List Tag) (n so ir : Bool) :
    get_active_tasks_list s tags n so ir true =
      match get_tasks_list s tags [Status.Active] n true false with
      | Except.error e => Except.error e
      | Except.ok temp =>
        Except.ok (workFilterGo s (removeExplicit s.nonworkTags tags) temp) := by
  unfold get_active_tasks_list
  rw [get_active_false_eq]

/-- A survivor of the resolution/loaded/status step resolves, is loaded, and
has a requested status. -/
theorem statusFiltered_some {s : Store} {status : List Status} {tid : TaskId} {t : Task}
    (h : statusFiltered s status tid = some t) :
    s.get_task tid = some t ∧ t.loaded = true ∧ status.contains t.status = true := by
  unfold statusFiltered at h
  cases hg : s.get_task tid with
  | none => rw [hg] at h; cases h
  | some t0 =>
    simp only [hg] at h
    split at h
    · cases h
    · split at h
      · cases h
      · cases h
        rename_i hnl hns
        refine ⟨rfl, ?_, ?_⟩
        · simpa using hnl
        · simpa using hns

/-- An accepted candidate resolves to a loaded task whose status is in the
requested status list. -/
theorem acceptTask_ok_true_resolves {s : Store} {tags : List Tag} {status : List Status}
    {n so ir : Bool} {tid : TaskId}
    (h : acceptTask s tags status n so ir tid = Except.ok true) :
    ∃ t, s.get_task tid = some t ∧ t.loaded = true ∧ status.contains t.status = true := by
  unfold acceptTask at h
  cases hf : statusFiltered s status tid with
  | none => rw [hf] at h; simp at h
  | some t => exact ⟨t, statusFiltered_some hf⟩

/-- Membership in an `Except.ok` run of the `get_tasks_list` loop is
membership among the candidates together with acceptance. -/
theorem mem_tasksListGo {s : Store} {tags : List Tag} {status : List Status}
    {n so ir : Bool} {tids l : List TaskId} {tid : TaskId}
    (h : tasksListGo s tags status n so ir tids = Except.ok l) :
    tid ∈ l ↔ tid ∈ tids ∧ acceptTask s tags status n so ir tid = Except.ok true := by
  induction tids generalizing l with
  | nil =>
    simp only [tasksListGo] at h
    cases h
    simp
  | cons a rest ih =>
    simp only [tasksListGo] at h
    cases hacc : acceptTask s tags status n so ir a with
    | error e => rw [hacc] at h; cases h
    | ok b =>
      rw [hacc] at h
      cases hrec : tasksListGo s tags status n so ir rest with
      | error e => rw [hrec] at h; cases h
      | ok l2 =>
        rw [hrec] at h
        cases h
        have ihh := ih hrec
        cases b with
        | true =>
          rw [if_pos rfl]
          constructor
          · intro hm
            rcases List.mem_cons.mp hm with heq | hm2
            · subst heq; exact ⟨List.mem_cons_self _ _, hacc⟩
            · rcases ihh.mp hm2 with ⟨h1, h2⟩
              exact ⟨List.mem_cons_of_mem _ h1, h2⟩
          · rintro ⟨hmem, hok⟩
            rcases List.mem_cons.mp hmem with heq | hm2
            · subst heq; exact List.mem_cons_self _ _
            · exact List.mem_cons_of_mem _ (ihh.mpr ⟨hm2, hok⟩)
        | false =>
          rw [if_neg (by simp)]
          constructor
          · intro hm
            rcases ihh.mp hm with ⟨h1, h2⟩
            exact ⟨List.mem_cons_of_mem _ h1, h2⟩
          · rintro ⟨hmem, hok⟩
            rcases List.mem_cons.mp hmem with heq | hm2
            · subst heq; exact absurd (hacc.symm.trans hok) (by simp)
            · exact ihh.mpr ⟨hm2, hok⟩

/-- `mem_tasksListGo` restated for `get_tasks_list`. -/
theorem mem_get_tasks_list {s : Store} {tags : List Tag} {status : List Status}
    {n so ir : Bool} {l : List TaskId} {tid : TaskId}
    (h : get_tasks_list s tags status n so ir = Except.ok l) :
    tid ∈ l ↔ tid ∈ s.all_tasks ∧ acceptTask s tags status n so ir tid = Except.ok true :=
  mem_tasksListGo h

/-- The workable pass is the `List.filter` of its acceptance predicate. -/
theorem workFilterGo_eq_filter (s : Store) (nw : List Tag) (l : List TaskId) :
    workFilterGo s nw l = l.filter (workPred s nw) := by
  induction l with
  | nil => rfl
  | cons tid rest ih =>
    rw [List.filter_cons]
    cases hg : s.get_task tid with
    | none =>
      have hp : workPred s nw tid = false := by simp [workPred, hg]
      rw [hp]
      simp only [workFilterGo, hg, ih]
      simp
    | some t =>
      cases hw : t.workable with
      | false =>
        have hp : workPred s nw tid = false := by simp [workPred, hg, hw]
        rw [hp]
        simp only [workFilterGo, hg, hw, ih]
        simp
      | true =>
        cases he : nw.isEmpty with
        | true =>
          have hp : workPred s nw tid = true := by simp [workPred, hg, hw, he]
          rw [hp]
          simp only [workFilterGo, hg, hw, he, ih]
          simp
        | false =>
          cases ht : t.has_tags nw with
          | false =>
            have hp : workPred s nw tid = true := by simp [workPred, hg, hw, he, ht]
            rw [hp]
            simp only [workFilterGo, hg, hw, he, ht, ih]
            simp
          | true =>
            have hp : workPred s nw tid = false := by simp [workPred, hg, hw, he, ht]
            rw [hp]
            simp only [workFilterGo, hg, hw, he, ht, ih]
            simp

/-- A survivor of the workable pass was among its candidates. -/
theorem mem_workFilterGo {s : Store} {nw : List Tag} {l : List TaskId} {tid : TaskId}
    (h : tid ∈ workFilterGo s nw l) : tid ∈ l := by
  rw [workFilterGo_eq_filter] at h
  exact (List.mem_filter.mp h).1

/-- The trailing filters on a resolved task, as one boolean expression. -/
theorem postFilters_some_eq (n so : Bool) (t : Task) :
    postFilters n so (some t) = (!(n && !t.has_no_tags) && !(so && !t.started)) := by
  simp only [postFilters]
  cases n && !t.has_no_tags <;> cases so && !t.started <;> simp

/-- Passing the trailing filters with `started_only=True` implies passing them
with any `started_only`. -/
theorem postFilters_started_mono {n so : Bool} {x : Option Task}
    (h : postFilters n true x = true) : postFilters n so x = true := by
  cases x with
  | none => simp [postFilters] at h
  | some t =>
    rw [postFilters_some_eq] at h ⊢
    rcases Bool.and_eq_true_iff.mp h with ⟨h1, h2⟩
    refine Bool.and_eq_true_iff.mpr ⟨h1, ?_⟩
    cases hs : t.started with
    | true => simp [hs]
    | false => rw [hs] at h2; simp at h2

/-- With `is_root=False`, acceptance under `started_only=True` implies
acceptance under any `started_only`. -/
theorem acceptTask_started_mono {s : Store} {tags : List Tag} {status : List Status}
    {n so : Bool} {tid : TaskId}
    (h : acceptTask s tags status n true false tid = Except.ok true) :
    acceptTask s tags status n so false tid = Except.ok true := by
  unfold acceptTask at h ⊢
  cases hf : statusFiltered s status tid with
  | none => rw [hf] at h; simp at h
  | some t =>
    simp only [hf] at h ⊢
    cases he : tags.isEmpty with
    | false =>
      simp only [he, Bool.not_false, if_true, Except.ok.injEq] at h ⊢
      exact postFilters_started_mono h
    | true =>
      simp only [he, Bool.not_true, Bool.false_eq_true, if_false, Except.ok.injEq] at h ⊢
      exact postFilters_started_mono h

/-- A run of the parent loop that reports `true` means every parent resolves
to a note. -/
theorem checkParentsNote_ok_true {s : Store} {ps : List TaskId}
    (h : checkParentsNote s ps = Except.ok true) :
    ∀ p ∈ ps, ∃ pt, s.get_task p = some pt ∧ pt.status = Status.Note := by
  induction ps with
  | nil => intro p hp; cases hp
  | cons q rest ih =>
    simp only [checkParentsNote] at h
    cases hg : s.get_task q with
    | none => rw [hg] at h; cases h
    | some pp =>
      rw [hg] at h
      cases hrec : checkParentsNote s rest with
      | error e => rw [hrec] at h; cases h
      | ok b =>
        rw [hrec] at h
        have hb : ((pp.status == Status.Note) && b) = true := by
          simpa using h
        rcases Bool.and_eq_true_iff.mp hb with ⟨hb1, hb2⟩
        intro p hp
        rcases List.mem_cons.mp hp with heq | hm
        · subst heq
          exact ⟨pp, hg, by simpa using hb1⟩
        · subst hb2
          exact ih hrec p hm

/-- A member of an `Except.ok` result of `get_tasks_list` resolves to a
loaded task with a requested status. -/
theorem mem_get_tasks_list_resolves {s : Store} {tags : List Tag} {status : List Status}
    {n so ir : Bool} {l : List TaskId} {tid : TaskId}
    (h : get_tasks_list s tags status n so ir = Except.ok l) (hm : tid ∈ l) :
    ∃ t, s.get_task tid = some t ∧ t.loaded = true ∧ status.contains t.status = true := by
  rcases (mem_get_tasks_list h).mp hm with ⟨_, hacc⟩
  exact acceptTask_ok_true_resolves hacc

/-- A member of an `Except.ok` result of `get_active_tasks_list` (either
path) resolves to a loaded task with status `Active`. -/
theorem mem_get_active_resolves {s : Store} {tags : List Tag} {n so ir w : Bool}
    {l : List TaskId} {tid : TaskId}
    (h : get_active_tasks_list s tags n so ir w = Except.ok l) (hm : tid ∈ l) :
    ∃ t, s.get_task tid = some t ∧ t.loaded = true ∧ t.status = Status.Active := by
  cases w with
  | false =>
    rw [get_active_false_eq] at h
    rcases mem_get_tasks_list_resolves h hm with ⟨t, hg, hl, hs⟩
    refine ⟨t, hg, hl, ?_⟩
    simpa using hs
  | true =>
    rw [get_active_true_eq] at h
    cases hb : get_tasks_list s tags [Status.Active] n true false with
    | error e => rw [hb] at h; cases h
    | ok temp =>
      rw [hb] at h
      cases h
      rcases mem_get_tasks_list_resolves hb (mem_workFilterGo hm) with ⟨t, hg, hl, hs⟩
      exact ⟨t, hg, hl, by simpa using hs⟩

/-- With an empty status list the resolution/status step drops everything. -/
theorem statusFiltered_nil (s : Store) (tid : TaskId) :
    statusFiltered s [] tid = none := by
  unfold statusFiltered
  cases hg : s.get_task tid with
  | none => rfl
  | some t => cases t.loaded <;> simp

/-- With an empty status list every candidate is dropped without error. -/
theorem acceptTask_nil_status (s : Store) (tags : List Tag) (n so ir : Bool) (tid : TaskId) :
    acceptTask s tags [] n so ir tid = Except.ok false := by
  unfold acceptTask
  rw [statusFiltered_nil]

/-- With `notag_only=True` and a non-empty tag constraint every candidate is
dropped without error: carrying a constraint tag contradicts carrying no
tags. -/
theorem acceptTask_notag_nonempty (s : Store) (tags : List Tag) (status : List Status)
    (so ir : Bool) (tid : TaskId) (h : tags ≠ []) :
    acceptTask s tags status true so ir tid = Except.ok false := by
  unfold acceptTask
  cases hf : statusFiltered s status tid with
  | none => rfl
  | some t =>
    have he : tags.isEmpty = false := by simpa using h
    simp only [he, Bool.not_false, if_true, Except.ok.injEq]
    cases hfil : tagFiltered s tags ir t with
    | none => simp [postFilters]
    | some t2 =>
      have ht2 : t2 = t := by
        unfold tagFiltered at hfil
        split at hfil
        · cases hfil
        · split at hfil
          · cases hfil
          · cases hfil; rfl
      have ht : t.has_tags tags = true := by
        unfold tagFiltered at hfil
        cases hh : t.has_tags tags with
        | true => rfl
        | false => rw [hh] at hfil; simp at hfil
      have hex : ∃ x ∈ t.tags, x ∈ tags := by
        simpa [Task.has_tags] using ht
      have htags : t.tags ≠ [] := by
        rcases hex with ⟨x, hx, _⟩
        intro hnil
        rw [hnil] at hx
        cases hx
      have hnt : t.has_no_tags = false := by
        simp [Task.has_no_tags, htags]
      subst ht2
      simp [postFilters_some_eq, hnt]

/-! ## The claims -/

/-- Claim C1 (evidence of the code bug): with an empty tag constraint and
`is_root=True`, `get_tasks_list` raises instead of silently excluding when a
parent identifier of a candidate resolves to no task — in `storeC1`, active
task 1's only parent 2 is unresolvable and the whole query fails. -/
theorem getTasksList_error_on_missing_parent :
    get_tasks_list storeC1 [] [Status.Active] false true true = Except.error () := rfl

/-- Claim C2 (evidence of the code bug): tag 2 is flagged nonworkview and is
explicitly present in the tag constraint `[1, 2]`, yet the pruning loop —
which removes elements of the list it is iterating — skips it, so the
exclusion set keeps tag 2 and task 5 (active, started, workable, carrying
tag 2, and present in the non-workable active list) is excluded from
`get_active_tasks_list(workable=True)` solely for carrying it. -/
theorem workable_explicit_tag_still_excluded :
    removeExplicit [1, 2] [1, 2] = [2] ∧
    get_active_tasks_list storeC2 [1, 2] false true false false = Except.ok [5] ∧
    get_active_tasks_list storeC2 [1, 2] false true false true = Except.ok [] := by
  refine ⟨rfl, ?_, ?_⟩
  · rw [get_active_false_eq]; rfl
  · rw [get_active_true_eq]; rfl

/-- Claim C3 (confirmed): for every store and all caller arguments,
`get_active_tasks_list(workable=True)` equals the non-workable active list
computed with the given tag constraint and `notag_only` but with
`started_only` forced to `True` and `is_root` forced to `False`, filtered —
in iteration order — by the workable-pass predicate (workable holds, and if
the exclusion set is non-empty the task carries no excluded tag). -/
theorem activeWorkable_eq_filter (s : Store) (tags : List Tag) (n so ir : Bool) :
    get_active_tasks_list s tags n so ir true =
      Except.map (List.filter (workPred s (removeExplicit s.nonworkTags tags)))
        (get_active_tasks_list s tags n true false false) := by
  rw [get_active_true_eq, get_active_false_eq]
  cases get_tasks_list s tags [Status.Active] n true false with
  | error e => rfl
  | ok temp => simp [Except.map, workFilterGo_eq_filter]

/-- Claim C8 (confirmed): for every store and all other arguments,
`get_tasks_list` with an empty status set returns `Except.ok []` — the empty
list, with no error. -/
theorem empty_status_gives_empty (s : Store) (tags : List Tag) (n so ir : Bool) :
    get_tasks_list s tags [] n so ir = Except.ok [] := by
  unfold get_tasks_list
  induction s.all_tasks with
  | nil => rfl
  | cons a rest ih => simp [tasksListGo, acceptTask_nil_status, ih]

/-- Claim C10 (confirmed): for every store, a non-empty tag constraint
together with `notag_only=True` yields the empty list, since a task carrying
a constraint tag cannot carry no tags at all. -/
theorem nonempty_tags_notag_only_empty (s : Store) (tags : List Tag)
    (status : List Status) (so ir : Bool) (h : tags ≠ []) :
    get_tasks_list s tags status true so ir = Except.ok [] := by
  unfold get_tasks_list
  induction s.all_tasks with
  | nil => rfl
  | cons a rest ih => simp [tasksListGo, acceptTask_notag_nonempty s tags status so ir a h, ih]

/-- Witness for C10 at a concrete store and non-empty tag list. -/
theorem nonempty_tags_notag_only_empty_witness :
    get_tasks_list storeW [1] [Status.Active] true true false = Except.ok [] :=
  nonempty_tags_notag_only_empty storeW [1] [Status.Active] true false (by decide)

/-- Claim C4 (counterexample): with identical caller arguments `tags = []`,
`notag_only=False`, `started_only=True`, `is_root=True`, identifier 1 is in
the workable result (the workable path discards `is_root`) but not in the
non-workable result, where its active parent 2 disqualifies it as a root. -/
theorem workable_subset_fails_with_root :
    get_active_tasks_list storeC4 [] false true true true = Except.ok [1, 2] ∧
    get_active_tasks_list storeC4 [] false true true false = Except.ok [2] ∧
    (1 : TaskId) ∈ [1, 2] ∧ (1 : TaskId) ∉ [2] := by
  refine ⟨?_, ?_, by decide, by decide⟩
  · rw [get_active_true_eq]; rfl
  · rw [get_active_false_eq]; rfl

/-- Claim C4 (amended): for identical `tags`, `notag_only` and `started_only`
arguments and `is_root=False`, every identifier in the result of
`get_active_tasks_list(workable=True)` is in the result of
`get_active_tasks_list(workable=False)`. -/
theorem workable_subset_of_not_root (s : Store) (tags : List Tag) (n so : Bool)
    (l1 l2 : List TaskId) (tid : TaskId)
    (h1 : get_active_tasks_list s tags n so false true = Except.ok l1)
    (h2 : get_active_tasks_list s tags n so false false = Except.ok l2)
    (hm : tid ∈ l1) : tid ∈ l2 := by
  rw [get_active_true_eq] at h1
  rw [get_active_false_eq] at h2
  cases hb : get_tasks_list s tags [Status.Active] n true false with
  | error e => rw [hb] at h1; cases h1
  | ok temp =>
    rw [hb] at h1
    cases h1
    rcases (mem_get_tasks_list hb).mp (mem_workFilterGo hm) with ⟨hall, hacc⟩
    exact (mem_get_tasks_list h2).mpr ⟨hall, acceptTask_started_mono hacc⟩

/-- Witness for the amended C4 at a concrete store. -/
theorem workable_subset_of_not_root_witness : (1 : TaskId) ∈ ([1] : List TaskId) :=
  workable_subset_of_not_root storeW [] false true [1] [1] 1
    (by rw [get_active_true_eq]; rfl) (by rw [get_active_false_eq]; rfl) (by decide)

/-- Claim C5 (confirmed): for any store and any argument choices, the closed,
active and note results are pairwise disjoint — each member's unique status
lies in the corresponding status set, and the three status sets are
disjoint. -/
theorem closed_active_notes_disjoint (s : Store)
    (tg1 tg2 tg3 : List Tag) (n1 n2 n3 so1 so2 ir1 ir2 w : Bool)
    (l1 l2 l3 : List TaskId) (tid : TaskId)
    (h1 : get_closed_tasks_list s tg1 n1 so1 ir1 = Except.ok l1)
    (h2 : get_active_tasks_list s tg2 n2 so2 ir2 w = Except.ok l2)
    (h3 : get_notes_list s tg3 n3 = Except.ok l3) :
    ¬(tid ∈ l1 ∧ tid ∈ l2) ∧ ¬(tid ∈ l1 ∧ tid ∈ l3) ∧ ¬(tid ∈ l2 ∧ tid ∈ l3) := by
  unfold get_closed_tasks_list at h1
  unfold get_notes_list at h3
  refine ⟨?_, ?_, ?_⟩
  · rintro ⟨m1, m2⟩
    rcases mem_get_tasks_list_resolves h1 m1 with ⟨t, hg, _, hs1⟩
    rcases mem_get_active_resolves h2 m2 with ⟨t2, hg2, _, hs2⟩
    rw [hg] at hg2
    cases hg2
    rw [hs2] at hs1
    exact absurd hs1 (by decide)
  · rintro ⟨m1, m3⟩
    rcases mem_get_tasks_list_resolves h1 m1 with ⟨t, hg, _, hs1⟩
    rcases mem_get_tasks_list_resolves h3 m3 with ⟨t2, hg2, _, hs3⟩
    rw [hg] at hg2
    cases hg2
    have hn : t.status = Status.Note := by simpa using hs3
    rw [hn] at hs1
    exact absurd hs1 (by decide)
  · rintro ⟨m2, m3⟩
    rcases mem_get_active_resolves h2 m2 with ⟨t, hg, _, hs2⟩
    rcases mem_get_tasks_list_resolves h3 m3 with ⟨t2, hg2, _, hs3⟩
    rw [hg] at hg2
    cases hg2
    have hn : t.status = Status.Note := by simpa using hs3
    rw [hs2] at hn
    exact Status.noConfusion hn

/-- Witness for C5 at a concrete store holding one task of each kind. -/
theorem closed_active_notes_disjoint_witness :
    ¬((2 : TaskId) ∈ ([2] : List TaskId) ∧ (2 : TaskId) ∈ ([1] : List TaskId)) ∧
    ¬((2 : TaskId) ∈ ([2] : List TaskId) ∧ (2 : TaskId) ∈ ([3] : List TaskId)) ∧
    ¬((2 : TaskId) ∈ ([1] : List TaskId) ∧ (2 : TaskId) ∈ ([3] : List TaskId)) :=
  closed_active_notes_disjoint storeMix [] [] [] false false false false false false
    false false [2] [1] [3] 2 rfl (by rw [get_active_false_eq]; rfl) rfl

/-- Claim C6 (confirmed): a task whose loaded flag is false never appears in
an `Except.ok` result of any of the four queries. -/
theorem unloaded_excluded_from_queries (s : Store) (tid : TaskId) (t : Task)
    (hres : s.get_task tid = some t) (hun : t.loaded = false) :
    (∀ tags status n so ir l,
      get_tasks_list s tags status n so ir = Except.ok l → tid ∉ l) ∧
    (∀ tags n so ir w l,
      get_active_tasks_list s tags n so ir w = Except.ok l → tid ∉ l) ∧
    (∀ tags n so ir l,
      get_closed_tasks_list s tags n so ir = Except.ok l → tid ∉ l) ∧
    (∀ tags n l, get_notes_list s tags n = Except.ok l → tid ∉ l) := by
  have base : ∀ tags status n so ir l,
      get_tasks_list s tags status n so ir = Except.ok l → tid ∉ l := by
    intro tags status n so ir l h hm
    rcases mem_get_tasks_list_resolves h hm with ⟨t2, hg2, hl2, _⟩
    rw [hres] at hg2
    cases hg2
    rw [hun] at hl2
    simp at hl2
  refine ⟨base, ?_, ?_, ?_⟩
  · intro tags n so ir w l h hm
    rcases mem_get_active_resolves h hm with ⟨t2, hg2, hl2, _⟩
    rw [hres] at hg2
    cases hg2
    rw [hun] at hl2
    simp at hl2
  · intro tags n so ir l h
    exact base tags [Status.Done, Status.Dismiss, Status.Deleted] n so ir l h
  · intro tags n l h
    exact base tags [Status.Note] n false false l h

/-- Witness for C6: the unloaded task 2 of `storeC6` is absent from a
concrete query result. -/
theorem unloaded_excluded_from_queries_witness : (2 : TaskId) ∉ ([1] : List TaskId) :=
  (unloaded_excluded_from_queries storeC6 2 taskU rfl rfl).1
    [] [Status.Active] false true false [1] rfl

/-- With an empty tag constraint and `is_root=True`, acceptance of a
resolvable candidate means every one of its parents resolves to a note. -/
theorem acceptTask_empty_root_parents {s : Store} {status : List Status} {n so : Bool}
    {tid : TaskId} {t : Task} (ht : s.get_task tid = some t)
    (hacc : acceptTask s [] status n so true tid = Except.ok true) :
    ∀ p ∈ t.parents, ∃ pt, s.get_task p = some pt ∧ pt.status = Status.Note := by
  unfold acceptTask at hacc
  cases hf : statusFiltered s status tid with
  | none => rw [hf] at hacc; simp at hacc
  | some t0 =>
    have hg := (statusFiltered_some hf).1
    rw [ht] at hg
    have heq : t = t0 := Option.some.inj hg
    rw [heq]
    simp only [hf, List.isEmpty_nil, Bool.not_true, Bool.false_eq_true, if_false,
      if_true] at hacc
    cases hp : t0.has_parents with
    | false =>
      have hpar : t0.parents = [] := by
        simpa [Task.has_parents] using hp
      intro p hmem
      rw [hpar] at hmem
      cases hmem
    | true =>
      rw [hp] at hacc
      simp only [if_true] at hacc
      cases hcp : checkParentsNote s t0.parents with
      | error e => rw [hcp] at hacc; cases hacc
      | ok allNote =>
        rw [hcp] at hacc
        cases allNote with
        | false => simp [postFilters] at hacc
        | true => exact checkParentsNote_ok_true hcp

/-- With an empty tag constraint and `is_root=True`, a parent resolving to a
non-note forces rejection of the candidate. -/
theorem acceptTask_empty_root_reject {s : Store} {status : List Status} {n so : Bool}
    {tid p : TaskId} {t pt : Task}
    (ht : s.get_task tid = some t) (hp : p ∈ t.parents)
    (hg : s.get_task p = some pt) (hns : pt.status ≠ Status.Note) :
    acceptTask s [] status n so true tid ≠ Except.ok true := by
  intro hacc
  rcases acceptTask_empty_root_parents ht hacc p hp with ⟨pt2, hg2, hs2⟩
  rw [hg] at hg2
  cases hg2
  exact hns hs2

/-- With an empty tag constraint and `is_root=True`, a parentless resolvable
candidate passing the loaded/status/notag/started filters is accepted. -/
theorem acceptTask_empty_root_accept {s : Store} {status : List Status} {n so : Bool}
    {tid : TaskId} {t : Task} (ht : s.get_task tid = some t)
    (hpar : t.parents = []) (hld : t.loaded = true)
    (hst : status.contains t.status = true)
    (hnt : n = true → t.has_no_tags = true) (hso : so = true → t.started = true) :
    acceptTask s [] status n so true tid = Except.ok true := by
  have hf : statusFiltered s status tid = some t := by
    have hmem : t.status ∈ status := by simpa using hst
    simp [statusFiltered, ht, hld, hmem]
  unfold acceptTask
  simp only [hf, List.isEmpty_nil, Bool.not_true, Bool.false_eq_true, if_false, if_true]
  have hp : t.has_parents = false := by
    simp [Task.has_parents, hpar]
  rw [hp]
  simp only [Bool.false_eq_true, if_false, Except.ok.injEq]
  rw [postFilters_some_eq]
  cases hn2 : n with
  | false =>
    cases hs2 : so with
    | false => simp [hn2, hs2]
    | true => simp [hn2, hs2, hso hs2]
  | true =>
    cases hs2 : so with
    | false => simp [hn2, hs2, hnt hn2]
    | true => simp [hn2, hs2, hnt hn2, hso hs2]

/-- Claim C9 (confirmed): with an empty tag constraint and `is_root=True`, a
candidate with parents is accepted only if every parent resolves to a note; a
resolvable non-note parent forces rejection; and a parentless candidate
passing the other filters is accepted. -/
theorem empty_tags_root_note_parents (s : Store) (status : List Status)
    (n so : Bool) (l : List TaskId) (tid : TaskId) (t : Task)
    (hl : get_tasks_list s [] status n so true = Except.ok l)
    (ht : s.get_task tid = some t) :
    (tid ∈ l → ∀ p ∈ t.parents, ∃ pt, s.get_task p = some pt ∧ pt.status = Status.Note) ∧
    ((∃ p ∈ t.parents, ∃ pt, s.get_task p = some pt ∧ pt.status ≠ Status.Note) →
      tid ∉ l) ∧
    (t.parents = [] → tid ∈ s.all_tasks → t.loaded = true →
      status.contains t.status = true → (n = true → t.has_no_tags = true) →
      (so = true → t.started = true) → tid ∈ l) := by
  refine ⟨?_, ?_, ?_⟩
  · intro hm
    rcases (mem_get_tasks_list hl).mp hm with ⟨_, hacc⟩
    exact acceptTask_empty_root_parents ht hacc
  · rintro ⟨p, hp, pt, hg, hns⟩ hm
    rcases (mem_get_tasks_list hl).mp hm with ⟨_, hacc⟩
    exact acceptTask_empty_root_reject ht hp hg hns hacc
  · intro hpar hin hld hst hnt hso
    exact (mem_get_tasks_list hl).mpr
      ⟨hin, acceptTask_empty_root_accept ht hpar hld hst hnt hso⟩

/-- Witness for C9: in `storeC9`, active task 1 is the child of note 2 and is
accepted by the empty-tag root query. -/
theorem empty_tags_root_note_parents_witness :
    ((1 : TaskId) ∈ ([1] : List TaskId) →
      ∀ p ∈ taskF.parents, ∃ pt, storeC9.get_task p = some pt ∧ pt.status = Status.Note) ∧
    ((∃ p ∈ taskF.parents, ∃ pt, storeC9.get_task p = some pt ∧ pt.status ≠ Status.Note) →
      (1 : TaskId) ∉ ([1] : List TaskId)) ∧
    (taskF.parents = [] → (1 : TaskId) ∈ storeC9.all_tasks → taskF.loaded = true →
      [Status.Active].contains taskF.status = true →
      (false = true → taskF.has_no_tags = true) →
      (true = true → taskF.started = true) → (1 : TaskId) ∈ ([1] : List TaskId)) :=
  empty_tags_root_note_parents storeC9 [Status.Active] false true [1] 1 taskF rfl rfl

/-- One step of the inner accumulation loop of `get_used_tags`. -/
theorem collectTags_cons (acc : List Tag) (a : Tag) (rest : List Tag) :
    collectTags acc (a :: rest) =
      collectTags (if acc.contains a then acc else acc ++ [a]) rest := rfl

/-- Unfolding of `firstSeen` on a cons cell. -/
theorem firstSeen_cons (x : Tag) (xs : List Tag) :
    firstSeen (x :: xs) = x :: firstSeen (xs.filter fun y => !(y == x)) := by
  rw [firstSeen.eq_def]

/-- The outer loop of `get_used_tags` accumulates the concatenated tag
stream of its candidates. -/
theorem usedTagsGo_eq (s : Store) (acc : List Tag) (tids : List TaskId) :
    usedTagsGo s acc tids =
      collectTags acc (tids.flatMap fun tid =>
        match s.get_task tid with
        | some t => t.tags
        | none => []) := by
  induction tids generalizing acc with
  | nil => rfl
  | cons tid rest ih =>
    simp only [usedTagsGo, List.flatMap_cons]
    cases hg : s.get_task tid with
    | none =>
      simp only [hg, List.nil_append]
      exact ih acc
    | some t =>
      simp only [hg]
      rw [ih (collectTags acc t.tags)]
      unfold collectTags
      rw [List.foldl_append]

/-- Membership in the accumulated list. -/
theorem mem_collectTags (x : Tag) (l : List Tag) : ∀ acc : List Tag,
    x ∈ collectTags acc l ↔ x ∈ acc ∨ x ∈ l := by
  induction l with
  | nil => intro acc; simp [collectTags]
  | cons a rest ih =>
    intro acc
    rw [collectTags_cons]
    cases hc : acc.contains a with
    | true =>
      simp only [eq_self_iff_true, if_true]
      have ha : a ∈ acc := by simpa using hc
      rw [ih acc]
      constructor
      · rintro (h | h)
        · exact Or.inl h
        · exact Or.inr (List.mem_cons_of_mem _ h)
      · rintro (h | h)
        · exact Or.inl h
        · rcases List.mem_cons.mp h with rfl | h2
          · exact Or.inl ha
          · exact Or.inr h2
    | false =>
      simp only [Bool.false_eq_true, if_false]
      rw [ih (acc ++ [a])]
      simp only [List.mem_append, List.mem_cons, List.mem_singleton]
      tauto

/-- The accumulator keeps the collected list duplicate-free. -/
theorem nodup_collectTags (l : List Tag) : ∀ acc : List Tag,
    acc.Nodup → (collectTags acc l).Nodup := by
  induction l with
  | nil => intro acc h; exact h
  | cons a rest ih =>
    intro acc h
    rw [collectTags_cons]
    cases hc : acc.contains a with
    | true =>
      simp only [eq_self_iff_true, if_true]
      exact ih acc h
    | false =>
      simp only [Bool.false_eq_true, if_false]
      apply ih
      have ha : a ∉ acc := by simpa using hc
      rw [← List.concat_eq_append]
      exact List.Nodup.concat ha h

/-- The accumulator computes first-seen deduplication of the elements not
already collected. -/
theorem collectTags_eq_firstSeen (l : List Tag) : ∀ acc : List Tag,
    collectTags acc l = acc ++ firstSeen (l.filter fun y => !(acc.contains y)) := by
  induction l with
  | nil => intro acc; simp [collectTags, firstSeen]
  | cons a rest ih =>
    intro acc
    rw [collectTags_cons, List.filter_cons]
    cases hc : acc.contains a with
    | true =>
      simp only [eq_self_iff_true, if_true, Bool.not_true, Bool.false_eq_true, if_false]
      exact ih acc
    | false =>
      simp only [Bool.false_eq_true, if_false, Bool.not_false, eq_self_iff_true, if_true]
      rw [ih (acc ++ [a]), firstSeen_cons, List.filter_filter]
      have hpt : ∀ y ∈ rest,
          (!((acc ++ [a]).contains y)) = ((!(y == a)) && !(acc.contains y)) := by
        intro y hy
        rw [Bool.eq_iff_iff]
        simp [List.contains, not_or]
        tauto
      rw [List.filter_congr hpt]
      simp

/-- Claim C7 (confirmed): `get_used_tags` contains a tag iff at least one
resolvable task of the store carries it (no loaded or status filtering beyond
resolvability), contains no duplicates, and equals the first-seen
deduplication of the resolvable tasks' tag stream in store iteration
order. -/
theorem used_tags_spec (s : Store) :
    (∀ tg : Tag, tg ∈ get_used_tags s ↔
      ∃ tid, tid ∈ s.all_tasks ∧ ∃ t, s.get_task tid = some t ∧ tg ∈ t.tags) ∧
    (get_used_tags s).Nodup ∧
    get_used_tags s = firstSeen (tagStream s) := by
  have hstream : get_used_tags s = collectTags [] (tagStream s) :=
    usedTagsGo_eq s [] s.all_tasks
  refine ⟨?_, ?_, ?_⟩
  · intro tg
    rw [hstream, mem_collectTags]
    unfold tagStream
    constructor
    · rintro (h | h)
      · cases h
      · rcases List.mem_flatMap.mp h with ⟨tid, htid, hmem⟩
        cases hg : s.get_task tid with
        | none => rw [hg] at hmem; cases hmem
        | some t =>
          refine ⟨tid, htid, t, hg, ?_⟩
          rw [hg] at hmem
          exact hmem
    · rintro ⟨tid, htid, t, hg, hmem⟩
      refine Or.inr (List.mem_flatMap.mpr ⟨tid, htid, ?_⟩)
      rw [hg]
      exact hmem
  · rw [hstream]
    exact nodup_collectTags _ [] List.nodup_nil
  · rw [hstream, collectTags_eq_firstSeen]
    simp

end GTG
